import Mathlib

/-!
Shallow embedding of `recipes/cpc2/baseline/compute_haspi.py`.

Signal names and file contents are modelled as `List Char` (Python `str`).
External collaborators that the script treats as opaque (the MD5 hexdigest,
the `haspi_v2_be` scorer, numpy's generator initialisation) are parameters
of the embedded functions; everything the script itself computes is
translated directly from the source.
-/

namespace Clarity

/-- The Python exceptions the script can raise, as an error type. -/
inductive PyError where
  | valueError : List Char → PyError
  | keyError : PyError
  | fileNotFoundError : PyError
  | assertionError : PyError
deriving DecidableEq

/-- Embeds `parse_cec2_signal_name`.  Python `signal_name.split("_")` is
`List.splitOn '_'`; the unpacking `scene, listener, *system = ...` raises
`ValueError` when fewer than two segments exist (the fallback arm), and the
explicit check raises when scene or listener is empty or no system segment
remains. -/
def parse_cec2_signal_name (signal_name : List Char) :
    Except PyError (List Char × List Char × List Char) :=
  match signal_name.splitOn '_' with
  | scene :: listener :: system =>
      if scene = [] ∨ listener = [] ∨ system = [] then
        Except.error (PyError.valueError signal_name)
      else
        Except.ok (scene, listener, List.intercalate ['_'] system)
  | _ => Except.error (PyError.valueError signal_name)

/-- The state of numpy's process-wide random generator after `np.random.seed`:
the generator state is a deterministic function of the integer seed, which we
record directly. -/
structure NumpyRandomState where
  seed : Nat
deriving DecidableEq

/-- Embeds `np.random.seed`. -/
def np_random_seed (n : Nat) : NumpyRandomState := ⟨n⟩

/-- Embeds `set_seed_with_string`.  `md5_hex_int` stands for the opaque
`int(hashlib.md5(s.encode()).hexdigest(), 16)`, a pure function of the
string; the script reduces it modulo `10 ** 8` and seeds numpy with it. -/
def set_seed_with_string (md5_hex_int : List Char → Nat) (seed_string : List Char) :
    NumpyRandomState :=
  np_random_seed (md5_hex_int seed_string % 10 ^ 8)

/-- A listener audiogram entry from `listeners.json`. -/
structure Audiogram where
  audiogram_levels_l : List Rat
  audiogram_levels_r : List Rat
  audiogram_cfs : List Rat

/-- A 16-bit PCM stereo WAV file as returned by `wavfile.read`:
a sample rate and a list of stereo sample pairs. -/
structure WavFile where
  fs : Nat
  samples : List (Int × Int)

/-- The `path` configuration together with the file system it points into:
the audiogram store and the two WAV directories, keyed by file name. -/
structure Paths where
  listeners : List Char → Option Audiogram
  signal_dir : List Char → Option WavFile
  scene_dir : List Char → Option WavFile

/-- Embeds the normalisation `x / 32768.0` applied elementwise to both
waveforms (exact for 16-bit integers, so `Rat` is a faithful model). -/
def normalize_sample (s : Int) : Rat := (s : Rat) / 32768

/-- Embeds `compute_haspi_for_signal`.  `haspi_v2_be` is the opaque external
scorer, taking reference left/right, processed left/right, the sample rate
and the three audiogram lists.  Missing audiogram or WAV files are the
`KeyError` / `FileNotFoundError` paths; the sample-rate `assert` is the
`assertionError` path. -/
def compute_haspi_for_signal
    (haspi_v2_be : List Rat → List Rat → List Rat → List Rat → Nat →
      List Rat → List Rat → List Rat → Rat)
    (path : Paths) (signal_name : List Char) : Except PyError Rat :=
  match parse_cec2_signal_name signal_name with
  | Except.error e => Except.error e
  | Except.ok (scene, _listener, _) =>
    match path.listeners _listener with
    | none => Except.error PyError.keyError
    | some audiogram =>
      match path.signal_dir (signal_name ++ (".wav".data)) with
      | none => Except.error PyError.fileNotFoundError
      | some proc =>
        match path.scene_dir (scene ++ ("_target_ref.wav".data)) with
        | none => Except.error PyError.fileNotFoundError
        | some ref =>
          if ref.fs = proc.fs then
            Except.ok (haspi_v2_be
              (ref.samples.map fun p => normalize_sample p.1)
              (ref.samples.map fun p => normalize_sample p.2)
              (proc.samples.map fun p => normalize_sample p.1)
              (proc.samples.map fun p => normalize_sample p.2)
              proc.fs
              audiogram.audiogram_levels_l
              audiogram.audiogram_levels_r
              audiogram.audiogram_cfs)
          else
            Except.error PyError.assertionError

/-- Every `n`-th element of a list starting from its head: the semantics of
a Python slice `xs[0::n]` for step `n ≥ 1`. -/
def everyNth (n : Nat) : List α → List α
  | [] => []
  | x :: xs => x :: everyNth n (xs.drop (n - 1))
  termination_by l => l.length
  decreasing_by simp [List.length_drop]; omega

/-- The Python slice `xs[start::step]` for `step ≥ 1`. -/
def list_slice_from_step (start step : Nat) (xs : List α) : List α :=
  everyNth step (xs.drop start)

/-- The keys of the `results_index` dictionary built from the loaded results
log: the signal name of each record. -/
def results_index (results : List (List Char × Rat)) : List (List Char) :=
  results.map Prod.fst

/-- The work list of `run_calculate_haspi`: manifest signals whose name is
not in the results index, then the batch shard
`records[batch - 1 :: n_batches]`. -/
def driver_todo (batch n_batches : Nat) (manifest : List (List Char))
    (results : List (List Char × Rat)) : List (List Char) :=
  list_slice_from_step (batch - 1) n_batches
    (manifest.filter fun s => ! (results_index results).contains s)

/-- The scoring loop of `run_calculate_haspi`: for each signal in order,
compute its score and append one record to the log before moving on.
`score` stands for the call to `compute_haspi_for_signal`. -/
def run_loop (score : List Char → Rat) :
    List (List Char) → List (List Char × Rat) → List (List Char × Rat)
  | [], log => log
  | s :: rest, log => run_loop score rest (log ++ [(s, score s)])

/-- Embeds `run_calculate_haspi` as a function from the manifest and the
pre-existing results log to the final results log. -/
def run_calculate_haspi (score : List Char → Rat) (batch n_batches : Nat)
    (manifest : List (List Char)) (results : List (List Char × Rat)) :
    List (List Char × Rat) :=
  run_loop score (driver_todo batch n_batches manifest results) results

/-- Embeds the `batch_str` expression of `run_calculate_haspi`:
`f".{batch}_{n_batches}"` when `n_batches > 1`, else the empty string. -/
def batch_str (batch n_batches : Nat) : List Char :=
  if 1 < n_batches then
    ['.'] ++ (toString batch).data ++ ['_'] ++ (toString n_batches).data
  else []

/-- Embeds the results-file name `f"{cfg.dataset}.haspi{batch_str}.jsonl"`. -/
def results_file_name (dataset : List Char) (batch n_batches : Nat) : List Char :=
  dataset ++ (".haspi".data) ++ batch_str batch n_batches ++ (".jsonl".data)

/-- Embeds `json.dumps({"signal": signal, "haspi": haspi})` for a signal name
without JSON-escaped characters; `haspi` is the decimal rendering of the
float score. -/
def json_dumps_result (signal haspi : List Char) : List Char :=
  ("\x7b\"signal\": \"".data) ++ signal ++ ("\", \"haspi\": ".data) ++
    haspi ++ ("\x7d".data)

/-- Embeds `write_jsonl`: the file is opened in append mode and one line,
terminated by a newline, is written per record. `contents` is the prior file
content and `records` the serialised records. -/
def write_jsonl (contents : List Char) (records : List (List Char)) : List Char :=
  contents ++ (records.map fun r => r ++ ['\n']).flatten

/-- Concrete path configuration and file system used in witness statements:
one listener `"L"`, the processed file for signal `"S_L_E"` and the
reference file for scene `"S"`, both at 44100 Hz. -/
def example_paths : Paths where
  listeners := fun l => if l = ['L'] then some ⟨[], [], []⟩ else none
  signal_dir := fun f =>
    if f = (['S', '_', 'L', '_', 'E'] ++ (".wav".data)) then
      some ⟨44100, [(1, 2)]⟩
    else none
  scene_dir := fun f =>
    if f = (['S'] ++ ("_target_ref.wav".data)) then
      some ⟨44100, [(3, 4)]⟩
    else none

/-- A concrete stand-in for the external scorer, used in witness
statements. -/
def example_scorer : List Rat → List Rat → List Rat → List Rat → Nat →
    List Rat → List Rat → List Rat → Rat :=
  fun _ _ _ _ _ _ _ _ => 0

/-! ### Helper lemmas -/

/-- Unfolding lemma for the scoring loop: the final log is the initial log
with one record per processed signal appended, in order. -/
theorem run_loop_eq (score : List Char → Rat) :
    ∀ (todo : List (List Char)) (log : List (List Char × Rat)),
      run_loop score todo log = log ++ todo.map fun s => (s, score s) := by
  intro todo
  induction todo with
  | nil => intro log; simp [run_loop]
  | cons s rest ih =>
      intro log
      simp [run_loop, ih, List.append_assoc]

/-- A Python slice with step 1 keeps the whole list. -/
theorem everyNth_one (xs : List α) : everyNth 1 xs = xs := by
  induction xs with
  | nil => simp [everyNth]
  | cons x t ih => simp [everyNth, ih]

/-- Taking every `n`-th element yields a sublist. -/
theorem everyNth_sublist (n : Nat) (xs : List α) :
    List.Sublist (everyNth n xs) xs := by
  have H : ∀ (m : Nat) (ys : List α), ys.length ≤ m →
      List.Sublist (everyNth n ys) ys := by
    intro m
    induction m with
    | zero =>
        intro ys h
        cases ys with
        | nil => simp [everyNth]
        | cons y t => simp at h
    | succ m ih =>
        intro ys h
        cases ys with
        | nil => simp [everyNth]
        | cons y t =>
            rw [everyNth]
            refine List.Sublist.cons₂ y ?_
            exact (ih _ (by simp at h ⊢; omega)).trans (List.drop_sublist _ _)
  exact H xs.length xs le_rfl

/-- Adding a positive amount smaller than the modulus changes the residue. -/
theorem add_mod_ne_of_pos_of_lt (n a t : Nat) (ht : 0 < t) (htn : t < n) :
    (a + t) % n ≠ a % n := by
  intro h
  have hn : 0 < n := by omega
  rw [Nat.add_mod, Nat.mod_eq_of_lt htn] at h
  have h1 : a % n < n := Nat.mod_lt _ hn
  by_cases hc : a % n + t < n
  · rw [Nat.mod_eq_of_lt hc] at h
    omega
  · rw [Nat.mod_eq_sub_mod (by omega), Nat.mod_eq_of_lt (by omega)] at h
    omega

/-- The slice `xs[s::n]` (as `everyNth n (xs.drop s)`) consists exactly of
the elements whose zero-based index `i` in `xs` satisfies
`i % n = (k + s) % n`, when indices are counted from `k`. -/
theorem everyNth_drop_eq_filter_enumFrom (n : Nat) (hn : 0 < n) :
    ∀ (m : Nat) (xs : List α) (k s : Nat), xs.length ≤ m → s < n →
      everyNth n (xs.drop s) =
        ((xs.enumFrom k).filter fun p => decide (p.1 % n = (k + s) % n)).map
          Prod.snd := by
  intro m
  induction m with
  | zero =>
      intro xs k s hm _
      cases xs with
      | nil => simp [everyNth]
      | cons y t => simp at hm
  | succ m ih =>
      intro xs k s hm hs
      cases xs with
      | nil => simp [everyNth]
      | cons x t =>
          cases s with
          | zero =>
              rw [List.drop_zero, everyNth]
              have ht : t.length ≤ m := by simp at hm; omega
              have hn1 : n - 1 < n := by omega
              have hmod : (k + 1 + (n - 1)) % n = (k + 0) % n := by
                have : k + 1 + (n - 1) = k + n := by omega
                rw [this, Nat.add_mod_right, Nat.add_zero]
              rw [ih t (k + 1) (n - 1) ht hn1, hmod]
              simp [List.enumFrom, Nat.add_zero]
          | succ s' =>
              rw [List.drop_succ_cons]
              have ht : t.length ≤ m := by simp at hm; omega
              have hs' : s' < n := by omega
              have hne : ¬ (k % n = (k + (s' + 1)) % n) := by
                intro h
                exact add_mod_ne_of_pos_of_lt n k (s' + 1) (by omega) hs h.symm
              have hmod : (k + 1 + s') % n = (k + (s' + 1)) % n := by
                have : k + 1 + s' = k + (s' + 1) := by omega
                rw [this]
              rw [ih t (k + 1) s' ht hs', hmod]
              simp [List.enumFrom, hne]

/-- Prepending the separator-joined head to `intercalate` of a nonempty
tail. -/
theorem intercalate_cons_of_ne_nil (s x : List α) (l : List (List α))
    (h : l ≠ []) :
    List.intercalate s (x :: l) = x ++ s ++ List.intercalate s l := by
  cases l with
  | nil => exact absurd rfl h
  | cons b m =>
      simp [List.intercalate, List.intersperse_cons_cons, List.flatten_cons,
        List.append_assoc]

/-- Taking one more element appends exactly the element at index `k`. -/
theorem take_succ_get (l : List α) (k : Nat) (hk : k < l.length) :
    l.take (k + 1) = l.take k ++ [l[k]] := by
  induction l generalizing k with
  | nil => simp at hk
  | cons x t ih =>
      cases k with
      | zero => simp
      | succ k' =>
          have hk' : k' < t.length := by simpa using hk
          rw [List.take_succ_cons, List.take_succ_cons, ih k' hk']
          simp only [List.getElem_cons_succ, List.cons_append]

/-- In a duplicate-free list every member is counted exactly once. -/
theorem count_nodup_ite {α} [BEq α] [LawfulBEq α] :
    ∀ (l : List α), l.Nodup → ∀ a, l.count a = if a ∈ l then 1 else 0 := by
  intro l
  induction l with
  | nil => intro _ a; simp
  | cons x t ih =>
      intro hnd a
      obtain ⟨hx, ht⟩ := List.nodup_cons.mp hnd
      rw [List.count_cons, ih ht a]
      by_cases hax : a = x
      · subst hax
        simp [hx]
      · simp [hax, Ne.symm hax, List.mem_cons]

/-! ### Claim theorems -/

/-- C1: for every manifest and batch count `n ≥ 1`, shard `b` (with
`1 ≤ b ≤ n`) of a fresh run selects exactly the signals whose zero-based
manifest index `i` satisfies `i % n = b - 1`, and each manifest index is
selected by exactly one shard `b` in `1..n`. -/
theorem C1_sharding (manifest : List (List Char)) (n b : Nat)
    (h1 : 1 ≤ b) (h2 : b ≤ n) :
    driver_todo b n manifest [] =
      ((manifest.enum.filter fun p => decide (p.1 % n = b - 1)).map Prod.snd)
    ∧ ∀ i, i < manifest.length →
        ∃! b', 1 ≤ b' ∧ b' ≤ n ∧ i % n = b' - 1 := by
  have hn : 0 < n := by omega
  constructor
  · unfold driver_todo list_slice_from_step
    have hfilter :
        (manifest.filter fun s =>
          ! (results_index ([] : List (List Char × Rat))).contains s) =
          manifest := by
      simp [results_index]
    rw [hfilter,
      everyNth_drop_eq_filter_enumFrom n hn manifest.length manifest 0 (b - 1)
        le_rfl (by omega)]
    have hmod : (0 + (b - 1)) % n = b - 1 := by
      rw [Nat.zero_add]
      exact Nat.mod_eq_of_lt (by omega)
    rw [hmod]
    rfl
  · intro i _hi
    refine ⟨i % n + 1, ⟨by omega, ?_, by omega⟩, ?_⟩
    · have := Nat.mod_lt i hn
      omega
    · rintro b' ⟨hb1, hb2, hb3⟩
      omega

/-- C1 witness: manifest of three signals, two shards, shard 2 selects
exactly the signal at index 1. -/
theorem C1_sharding_witness :
    1 ≤ 2 ∧ 2 ≤ 2 ∧
      (driver_todo 2 2 [['A'], ['B'], ['C']] [] =
        (((([['A'], ['B'], ['C']] : List (List Char)).enum.filter
          fun p => decide (p.1 % 2 = 2 - 1)).map Prod.snd))
      ∧ ∀ i, i < ([['A'], ['B'], ['C']] : List (List Char)).length →
          ∃! b', 1 ≤ b' ∧ b' ≤ 2 ∧ i % 2 = b' - 1) :=
  ⟨by decide, by decide,
    C1_sharding [['A'], ['B'], ['C']] 2 2 (by decide) (by decide)⟩

/-- C5: the derived seed is a pure function of the string (two invocations
give identical generator states, hence any subsequent draw sequence is
identical), and it lies in the 32-bit range, being reduced modulo `10^8`. -/
theorem C5_seed_determinism (md5_hex_int : List Char → Nat) (s : List Char)
    (draw : NumpyRandomState → Nat → Nat) (k : Nat) :
    set_seed_with_string md5_hex_int s = set_seed_with_string md5_hex_int s
    ∧ (set_seed_with_string md5_hex_int s).seed < 10 ^ 8
    ∧ (set_seed_with_string md5_hex_int s).seed < 2 ^ 32
    ∧ draw (set_seed_with_string md5_hex_int s) k
        = draw (set_seed_with_string md5_hex_int s) k := by
  refine ⟨rfl, ?_, ?_, rfl⟩
  · exact Nat.mod_lt _ (by norm_num)
  · exact lt_of_lt_of_le (Nat.mod_lt _ (by norm_num)) (by norm_num)

/-- C8: the results file is `{dataset}.haspi.{batch}_{n_batches}.jsonl` when
`n_batches > 1` and `{dataset}.haspi.jsonl` otherwise, and appending a batch
of records writes one newline-terminated JSON object per record of the form
`\x7b"signal": <str>, "haspi": <float>\x7d`. -/
theorem C8_file_format (dataset : List Char) (b n : Nat)
    (contents : List Char) (rs : List (List Char × List Char)) :
    (1 < n → results_file_name dataset b n =
       dataset ++ (".haspi.".data) ++ (toString b).data ++ ("_".data) ++
         (toString n).data ++ (".jsonl".data))
    ∧ (¬ 1 < n → results_file_name dataset b n =
       dataset ++ (".haspi.jsonl".data))
    ∧ write_jsonl contents (rs.map fun r => json_dumps_result r.1 r.2) =
       contents ++ (rs.map fun r =>
         ("\x7b\"signal\": \"".data) ++ r.1 ++ ("\", \"haspi\": ".data) ++
           r.2 ++ ("\x7d\n".data)).flatten := by
  refine ⟨?_, ?_, ?_⟩
  · intro hn
    unfold results_file_name batch_str
    rw [if_pos hn]
    have hd : (".haspi.".data : List Char) = (".haspi".data) ++ ['.'] := by
      decide
    have hu : ("_".data : List Char) = ['_'] := by decide
    rw [hd, hu]
    simp [List.append_assoc]
  · intro hn
    unfold results_file_name batch_str
    rw [if_neg hn]
    have hj : (".haspi.jsonl".data : List Char) =
        (".haspi".data) ++ (".jsonl".data) := by decide
    rw [hj]
    simp [List.append_assoc]
  · have hfun : ((fun r => r ++ ['\n']) ∘
        fun (r : List Char × List Char) => json_dumps_result r.1 r.2) =
        fun r => ("\x7b\"signal\": \"".data) ++ r.1 ++
          ("\", \"haspi\": ".data) ++ r.2 ++ ("\x7d\n".data) := by
      funext r
      simp [Function.comp, json_dumps_result, List.append_assoc]
    rw [write_jsonl, List.map_map, hfun]

/-- C8 witness: concrete dataset name with three batches. -/
theorem C8_file_format_witness :
    (1 < 3) ∧ results_file_name ("d".data) 2 3 =
      ("d".data) ++ (".haspi.".data) ++ (toString 2).data ++ ("_".data) ++
        (toString 3).data ++ (".jsonl".data) :=
  ⟨by decide, (C8_file_format ("d".data) 2 3 [] []).1 (by decide)⟩

/-- C9: dividing any 16-bit PCM sample by 32768 lands in `[-1, 1]`. -/
theorem C9_pcm_normalization (s : Int) (h1 : -32768 ≤ s) (h2 : s ≤ 32767) :
    -1 ≤ normalize_sample s ∧ normalize_sample s ≤ 1 := by
  unfold normalize_sample
  have h32 : (0 : Rat) < 32768 := by norm_num
  have hs1 : ((-32768 : Int) : Rat) ≤ (s : Rat) := by exact_mod_cast h1
  have hs2 : ((s : Int) : Rat) ≤ ((32767 : Int) : Rat) := by exact_mod_cast h2
  constructor
  · rw [le_div_iff₀ h32]
    push_cast at hs1 ⊢
    linarith
  · rw [div_le_iff₀ h32]
    push_cast at hs2 ⊢
    linarith

/-- C9 witness: the extreme sample `-32768` maps to `-1`. -/
theorem C9_pcm_normalization_witness :
    -32768 ≤ (-32768 : Int) ∧ (-32768 : Int) ≤ 32767 ∧
      (-1 ≤ normalize_sample (-32768) ∧ normalize_sample (-32768) ≤ 1) :=
  ⟨by decide, by decide, C9_pcm_normalization (-32768) (by decide) (by decide)⟩

/-- C2 counterexample: `"S_L_"` splits into the three segments
`["S", "L", ""]`, the third of which is empty, yet the parser succeeds and
returns an empty system instead of raising. -/
theorem C2_parse_counterexample :
    (['S', '_', 'L', '_'] : List Char).splitOn '_' = [['S'], ['L'], []]
    ∧ parse_cec2_signal_name ['S', '_', 'L', '_'] =
        Except.ok (['S'], ['L'], []) := by
  exact ⟨rfl, rfl⟩

/-- C2 (amended): the parser returns scene, listener and the remaining
segments rejoined with underscores exactly when the name splits into at
least three segments whose first two are nonempty; it raises ValueError for
names with at most two segments or an empty first or second segment.  Empty
segments from the third position on are accepted. -/
theorem C2_parse_characterization (signal_name : List Char) :
    ((signal_name.splitOn '_').length ≤ 2 →
      parse_cec2_signal_name signal_name =
        Except.error (PyError.valueError signal_name))
    ∧ ∀ scene listener l, signal_name.splitOn '_' = scene :: listener :: l →
        (((scene = [] ∨ listener = [] ∨ l = []) →
           parse_cec2_signal_name signal_name =
             Except.error (PyError.valueError signal_name))
         ∧ (scene ≠ [] → listener ≠ [] → l ≠ [] →
           parse_cec2_signal_name signal_name =
             Except.ok (scene, listener, List.intercalate ['_'] l))) := by
  constructor
  · intro hlen
    unfold parse_cec2_signal_name
    cases hs : signal_name.splitOn '_' with
    | nil => rfl
    | cons a t =>
        cases t with
        | nil => rfl
        | cons b u =>
            rw [hs] at hlen
            simp only [List.length_cons] at hlen
            have hu : u = [] := by
              cases u with
              | nil => rfl
              | cons c v => simp at hlen
            subst hu
            dsimp only
            rw [if_pos (Or.inr (Or.inr rfl))]
  · intro scene listener l hs
    constructor
    · intro hc
      unfold parse_cec2_signal_name
      rw [hs]
      dsimp only
      rw [if_pos hc]
    · intro h1 h2 h3
      unfold parse_cec2_signal_name
      rw [hs]
      dsimp only
      rw [if_neg (by simp [h1, h2, h3])]

/-- C2 witness: the valid name `"S_L_T"` parses to scene `"S"`, listener
`"L"`, system `"T"`. -/
theorem C2_parse_characterization_witness :
    (['S', '_', 'L', '_', 'T'] : List Char).splitOn '_' =
        [['S'], ['L'], ['T']]
    ∧ parse_cec2_signal_name ['S', '_', 'L', '_', 'T'] =
        Except.ok (['S'], ['L'], List.intercalate ['_'] [['T']]) :=
  ⟨rfl,
    ((C2_parse_characterization ['S', '_', 'L', '_', 'T']).2 ['S'] ['L']
      [['T']] rfl).2 (by decide) (by decide) (by decide)⟩

/-- C10: whenever the parser succeeds, joining scene, listener and system
back with underscores reconstructs the original signal name. -/
theorem C10_parse_lossless (signal_name scene listener sys : List Char)
    (h : parse_cec2_signal_name signal_name =
      Except.ok (scene, listener, sys)) :
    scene ++ '_' :: (listener ++ '_' :: sys) = signal_name := by
  unfold parse_cec2_signal_name at h
  cases hs : signal_name.splitOn '_' with
  | nil => rw [hs] at h; simp at h
  | cons a t =>
      cases t with
      | nil => rw [hs] at h; simp at h
      | cons b u =>
          rw [hs] at h
          dsimp only at h
          by_cases hc : a = [] ∨ b = [] ∨ u = []
          · rw [if_pos hc] at h
            simp at h
          · rw [if_neg hc] at h
            push_neg at hc
            simp only [Except.ok.injEq, Prod.mk.injEq] at h
            obtain ⟨ha, hb, hsys⟩ := h
            subst ha
            subst hb
            subst hsys
            have hinv := List.intercalate_splitOn signal_name '_'
            rw [hs] at hinv
            rw [intercalate_cons_of_ne_nil ['_'] a (b :: u)
              (by simp)] at hinv
            rw [intercalate_cons_of_ne_nil ['_'] b u hc.2.2] at hinv
            rw [← hinv]
            simp [List.append_assoc]

/-- C10 witness: parsing `"S_L_T"` and rejoining gives back `"S_L_T"`. -/
theorem C10_parse_lossless_witness :
    parse_cec2_signal_name ['S', '_', 'L', '_', 'T'] =
        Except.ok (['S'], ['L'], ['T'])
    ∧ ['S'] ++ '_' :: (['L'] ++ '_' :: ['T']) = ['S', '_', 'L', '_', 'T'] :=
  ⟨rfl, C10_parse_lossless ['S', '_', 'L', '_', 'T'] ['S'] ['L'] ['T'] rfl⟩

/-- C3 counterexample: with the manifest `["A", "A"]` (a duplicate signal
name), running the single-shard driver twice from an empty log yields two
records named `"A"`, not exactly one record per unique signal name: the
skip-index is built once at start-up, so duplicates inside one run are all
scored and appended. -/
theorem C3_rerun_counterexample :
    ¬ ((((run_calculate_haspi (fun _ => 0) 1 1 [['A'], ['A']]
          (run_calculate_haspi (fun _ => 0) 1 1 [['A'], ['A']] [])).map
        Prod.fst).count ['A']) = 1) := by
  have e0 : driver_todo 1 1 [['A'], ['A']] [] = [['A'], ['A']] := by
    unfold driver_todo list_slice_from_step
    exact everyNth_one _
  have e2 : run_calculate_haspi (fun _ => (0 : Rat)) 1 1 [['A'], ['A']] [] =
      [(['A'], 0), (['A'], 0)] := by
    unfold run_calculate_haspi
    rw [e0, run_loop_eq]
    rfl
  have e3 : driver_todo 1 1 [['A'], ['A']] [(['A'], (0 : Rat)), (['A'], 0)] =
      [] := by
    unfold driver_todo list_slice_from_step
    exact everyNth_one _
  have e4 : run_calculate_haspi (fun _ => (0 : Rat)) 1 1 [['A'], ['A']]
      (run_calculate_haspi (fun _ => (0 : Rat)) 1 1 [['A'], ['A']] []) =
      [(['A'], 0), (['A'], 0)] := by
    rw [e2]
    unfold run_calculate_haspi
    rw [e3, run_loop_eq]
    rfl
  rw [e4]
  decide

/-- C3 (amended): for every manifest with pairwise-distinct signal names,
running the single-shard driver (batch 1 of 1) to completion twice starting
from an empty results log yields a log with exactly one record per unique
manifest signal name — none missing, none duplicated. -/
theorem C3_rerun_exactly_once (score : List Char → Rat)
    (manifest : List (List Char)) (hnd : manifest.Nodup) :
    ∀ s, ((run_calculate_haspi score 1 1 manifest
        (run_calculate_haspi score 1 1 manifest [])).map Prod.fst).count s
      = if s ∈ manifest then 1 else 0 := by
  intro s
  have h1 : driver_todo 1 1 manifest [] = manifest := by
    unfold driver_todo list_slice_from_step
    simp [results_index, everyNth_one]
  have hrun1 : run_calculate_haspi score 1 1 manifest [] =
      manifest.map fun t => (t, score t) := by
    unfold run_calculate_haspi
    rw [h1, run_loop_eq]
    simp
  have hidx : results_index (manifest.map fun t => (t, score t)) =
      manifest := by
    unfold results_index
    rw [List.map_map,
      show (Prod.fst ∘ fun t : List Char => (t, score t)) = id from rfl,
      List.map_id]
  have h2 : driver_todo 1 1 manifest (manifest.map fun t => (t, score t)) =
      [] := by
    unfold driver_todo list_slice_from_step
    rw [hidx]
    have hfil : (manifest.filter fun t => ! manifest.contains t) = [] := by
      rw [List.filter_eq_nil_iff]
      intro a ha
      simp [ha]
    rw [hfil]
    simp [everyNth]
  have hrun2 : run_calculate_haspi score 1 1 manifest
      (run_calculate_haspi score 1 1 manifest []) =
      manifest.map fun t => (t, score t) := by
    rw [hrun1]
    unfold run_calculate_haspi
    rw [h2]
    rfl
  rw [hrun2]
  have hmap : ((manifest.map fun t => (t, score t)).map Prod.fst) =
      manifest := hidx
  rw [hmap]
  exact count_nodup_ite manifest hnd s

/-- C3 witness: a two-signal manifest with distinct names gives one record
for each of its signals after two runs. -/
theorem C3_rerun_exactly_once_witness :
    ([['A'], ['B']] : List (List Char)).Nodup
    ∧ ((run_calculate_haspi (fun _ => 0) 1 1 [['A'], ['B']]
          (run_calculate_haspi (fun _ => 0) 1 1 [['A'], ['B']] [])).map
        Prod.fst).count ['A']
      = if ['A'] ∈ ([['A'], ['B']] : List (List Char)) then 1 else 0 :=
  ⟨by decide,
    C3_rerun_exactly_once (fun _ => 0) [['A'], ['B']] (by decide) ['A']⟩

/-- C4: if the loaded results log already has a record for signal `s`, the
driver's work list for any batch excludes `s` (no new computation), and the
final log's records for `s` are exactly those already present (no new
record appended for `s`). -/
theorem C4_rerun_skips_scored (score : List Char → Rat)
    (batch n_batches : Nat) (manifest : List (List Char))
    (results : List (List Char × Rat)) (s : List Char)
    (h : s ∈ results_index results) :
    s ∉ driver_todo batch n_batches manifest results
    ∧ (run_calculate_haspi score batch n_batches manifest results).filter
        (fun r => r.1 == s)
      = results.filter (fun r => r.1 == s) := by
  have hnot : s ∉ (manifest.filter fun t =>
      ! (results_index results).contains t) := by
    intro hmem
    have hp := (List.mem_filter.mp hmem).2
    have hc : (results_index results).contains s = true :=
      List.elem_eq_true_of_mem h
    rw [hc] at hp
    simp at hp
  have htodo : s ∉ driver_todo batch n_batches manifest results := by
    intro hmem
    unfold driver_todo list_slice_from_step at hmem
    have h1 := (everyNth_sublist n_batches _).subset hmem
    exact hnot (List.drop_subset _ _ h1)
  refine ⟨htodo, ?_⟩
  unfold run_calculate_haspi
  rw [run_loop_eq, List.filter_append]
  have hnil : (((driver_todo batch n_batches manifest results).map
      fun t => (t, score t)).filter fun r => r.1 == s) = [] := by
    rw [List.filter_eq_nil_iff]
    intro r hr
    obtain ⟨t, ht, rfl⟩ := List.mem_map.mp hr
    have : t ≠ s := fun he => htodo (he ▸ ht)
    simp [this]
  rw [hnil, List.append_nil]

/-- C4 witness: a log already holding `"A"` and a manifest containing
`"A"`. -/
theorem C4_rerun_skips_scored_witness :
    ['A'] ∈ results_index [(['A'], (1 : Rat))]
    ∧ (['A'] ∉ driver_todo 1 1 [['A'], ['B']] [(['A'], (1 : Rat))]
       ∧ (run_calculate_haspi (fun _ => 0) 1 1 [['A'], ['B']]
            [(['A'], (1 : Rat))]).filter (fun r => r.1 == ['A'])
         = [(['A'], (1 : Rat))].filter (fun r => r.1 == ['A'])) :=
  ⟨by decide,
    C4_rerun_skips_scored (fun _ => 0) 1 1 [['A'], ['B']]
      [(['A'], (1 : Rat))] ['A'] (by decide)⟩

/-- C7: the scoring loop appends exactly one record per processed signal,
in order, and never modifies previously written records: after `k` signals
the log equals the prior contents plus the `k` corresponding records, and
processing the next signal appends exactly its one record. -/
theorem C7_append_only_loop (score : List Char → Rat)
    (todo : List (List Char)) (log : List (List Char × Rat)) (k : Nat)
    (hk : k < todo.length) :
    run_loop score (todo.take k) log =
      log ++ ((todo.take k).map fun s => (s, score s))
    ∧ run_loop score (todo.take (k + 1)) log =
        run_loop score (todo.take k) log ++ [(todo[k], score (todo[k]))] := by
  refine ⟨run_loop_eq score _ log, ?_⟩
  rw [run_loop_eq, run_loop_eq, take_succ_get todo k hk, List.map_append]
  simp [List.append_assoc]

/-- C7 witness: with two pending signals and `k = 1`, the log after one
signal is the prior log plus that signal's record, and step two appends one
record for the second signal. -/
theorem C7_append_only_loop_witness :
    1 < ([['A'], ['B']] : List (List Char)).length
    ∧ (run_loop (fun _ => 0) ([['A'], ['B']].take 1) [(['C'], (2 : Rat))] =
        [(['C'], (2 : Rat))] ++
          (([['A'], ['B']].take 1).map fun s => (s, (fun _ => (0 : Rat)) s))
       ∧ run_loop (fun _ => 0) ([['A'], ['B']].take 2) [(['C'], (2 : Rat))] =
          run_loop (fun _ => 0) ([['A'], ['B']].take 1) [(['C'], (2 : Rat))]
            ++ [(['B'], (0 : Rat))]) :=
  ⟨by decide,
    C7_append_only_loop (fun _ => 0) [['A'], ['B']] [(['C'], (2 : Rat))] 1
      (by decide)⟩

/-- C6: when the signal name parses and the audiogram and both WAV files
are present, the score computation fails exactly when the reference and
processed sample rates differ, and with equal sample rates it returns the
external scorer's output on the normalised channels unmodified. -/
theorem C6_sample_rate_check
    (haspi : List Rat → List Rat → List Rat → List Rat → Nat →
      List Rat → List Rat → List Rat → Rat)
    (path : Paths) (signal_name scene listener sys : List Char)
    (audiogram : Audiogram) (proc ref : WavFile)
    (hp : parse_cec2_signal_name signal_name =
      Except.ok (scene, listener, sys))
    (ha : path.listeners listener = some audiogram)
    (hw1 : path.signal_dir (signal_name ++ (".wav".data)) = some proc)
    (hw2 : path.scene_dir (scene ++ ("_target_ref.wav".data)) = some ref) :
    ((∃ e, compute_haspi_for_signal haspi path signal_name =
        Except.error e) ↔ ref.fs ≠ proc.fs)
    ∧ (ref.fs = proc.fs →
        compute_haspi_for_signal haspi path signal_name =
          Except.ok (haspi
            (ref.samples.map fun p => normalize_sample p.1)
            (ref.samples.map fun p => normalize_sample p.2)
            (proc.samples.map fun p => normalize_sample p.1)
            (proc.samples.map fun p => normalize_sample p.2)
            proc.fs
            audiogram.audiogram_levels_l
            audiogram.audiogram_levels_r
            audiogram.audiogram_cfs)) := by
  unfold compute_haspi_for_signal
  rw [hp]
  dsimp only
  rw [ha]
  dsimp only
  rw [hw1]
  dsimp only
  rw [hw2]
  dsimp only
  by_cases hfs : ref.fs = proc.fs
  · rw [if_pos hfs]
    constructor
    · simp [hfs]
    · intro _
      rfl
  · rw [if_neg hfs]
    constructor
    · simp [hfs]
    · intro h
      exact absurd h hfs

/-- C6 witness: the signal `"S_L_E"` against the example path
configuration, where both WAV files exist at 44100 Hz. -/
theorem C6_sample_rate_check_witness :
    parse_cec2_signal_name ['S', '_', 'L', '_', 'E'] =
        Except.ok (['S'], ['L'], ['E'])
    ∧ example_paths.listeners ['L'] = some ⟨[], [], []⟩
    ∧ example_paths.signal_dir (['S', '_', 'L', '_', 'E'] ++ (".wav".data)) =
        some ⟨44100, [(1, 2)]⟩
    ∧ example_paths.scene_dir (['S'] ++ ("_target_ref.wav".data)) =
        some ⟨44100, [(3, 4)]⟩
    ∧ ((∃ e, compute_haspi_for_signal example_scorer example_paths
          ['S', '_', 'L', '_', 'E'] = Except.error e) ↔ 44100 ≠ 44100) :=
  ⟨rfl, rfl, rfl, rfl,
    (C6_sample_rate_check example_scorer example_paths
      ['S', '_', 'L', '_', 'E'] ['S'] ['L'] ['E'] ⟨[], [], []⟩
      ⟨44100, [(1, 2)]⟩ ⟨44100, [(3, 4)]⟩ rfl rfl rfl rfl).1⟩

end Clarity
